import Mathlib

/-!  A model of the shoe inventory management program (`inventory.py`).

Python `str` values are modelled as `List Char`, `float` as `ℚ` (exact
decimal arithmetic in place of IEEE doubles), and `int` as `ℤ`.  Console
input is passed to each operation explicitly, file contents are lists of
lines, and file-system failures (missing file, I/O errors) are modelled by
`Option`.  Each definition is a direct translation of the corresponding
function of the source; deviations forced by the idealizations are noted in
the doc comments. -/

/-! Model of the shoe inventory program. Python `str` values are modelled as
`List Char`, `float` as `ℚ` (exact decimal arithmetic), `int` as `ℤ`. -/

def isPySpace (c : Char) : Bool := c = ' ' || c = '\t' || c = '\n' || c = '\r'

/-- Model of Python `str.strip()`. -/
def pyStrip (cs : List Char) : List Char :=
  ((cs.dropWhile isPySpace).reverse.dropWhile isPySpace).reverse

/-- Model of Python `str.upper()` (ASCII letters). -/
def pyUpperChar (c : Char) : Char :=
  if 'a' ≤ c ∧ c ≤ 'z' then Char.ofNat (c.toNat - 32) else c

def pyUpper (cs : List Char) : List Char := cs.map pyUpperChar

/-- Model of Python `str.split(sep)` for a one-character separator. -/
def splitPy (sep : Char) : List Char → List (List Char)
  | [] => [[]]
  | c :: cs =>
    if c = sep then [] :: splitPy sep cs
    else
      match splitPy sep cs with
      | [] => [[c]]
      | g :: gs => (c :: g) :: gs

def isDigitCh (c : Char) : Bool := decide ('0' ≤ c ∧ c ≤ '9')

/-- Numeric value of a list of decimal digit characters, most significant first. -/
def digitsToNat (cs : List Char) : ℕ := cs.foldl (fun a c => 10 * a + (c.toNat - 48)) 0

/-- Unsigned decimal literal: digits with at most one dot, at least one digit. -/
def parseUDec (cs : List Char) : Option ℚ :=
  match splitPy '.' cs with
  | [ip] => if ip ≠ [] ∧ ip.all isDigitCh then some (digitsToNat ip) else none
  | [ip, fp] =>
    if (ip ≠ [] ∨ fp ≠ []) ∧ ip.all isDigitCh ∧ fp.all isDigitCh then
      some ((digitsToNat ip : ℚ) + (digitsToNat fp : ℚ) / (10 : ℚ) ^ fp.length)
    else none
  | _ => none

/-- Model of Python `float(s)` on plain decimal literals (surrounding whitespace
ignored, optional sign); exponent/`inf`/`nan`/underscore forms are idealized away. -/
def pyFloat (s : List Char) : Option ℚ :=
  let t := pyStrip s
  if t.head? = some '+' then parseUDec t.tail
  else if t.head? = some '-' then (parseUDec t.tail).map (fun q => -q)
  else parseUDec t

/-- Unsigned integer literal: a nonempty all-digit string. -/
def parseUInt (cs : List Char) : Option ℤ :=
  if cs ≠ [] ∧ cs.all isDigitCh then some (digitsToNat cs) else none

/-- Model of Python `int(s)`. -/
def pyInt (s : List Char) : Option ℤ :=
  let t := pyStrip s
  if t.head? = some '+' then parseUInt t.tail
  else if t.head? = some '-' then (parseUInt t.tail).map (fun q => -q)
  else parseUInt t

def digitCh (d : ℕ) : Char := Char.ofNat (48 + d)

/-- Decimal digits of `n`, most significant first (`fuel ≥ n` suffices). -/
def showNatAux : ℕ → ℕ → List Char
  | 0, _ => []
  | fuel + 1, n => if n = 0 then [] else showNatAux fuel (n / 10) ++ [digitCh (n % 10)]

/-- Model of Python `str` on a nonnegative integer. -/
def showNat (n : ℕ) : List Char := if n = 0 then ['0'] else showNatAux n n

/-- Model of Python `str` on an `int`. -/
def showInt (i : ℤ) : List Char :=
  if i < 0 then '-' :: showNat i.natAbs else showNat i.natAbs

def padZeros (k : ℕ) (cs : List Char) : List Char := List.replicate (k - cs.length) '0' ++ cs

/-- Decimal rendering of a stored cost, modelling Python's `str` on the float
`shoe.cost` used by `save_shoes_data`: an exact decimal expansion of the
rational (the precise digit string differs from CPython's shortest-repr
algorithm only in trailing zeros, i.e. in textual formatting). -/
def showCost (q : ℚ) : List Char :=
  let k := q.den
  let m := q.num.toNat * (10 ^ k / q.den)
  showNat (m / 10 ^ k) ++ '.' :: padZeros k (showNat (m % 10 ^ k))

/-- Model of class `Shoe`. -/
structure Shoe where
  country : List Char
  code : List Char
  product : List Char
  cost : ℚ
  quantity : ℤ
deriving DecidableEq, Repr

/-- Model of `Shoe.__init__`: trims the text fields, parses and validates the
numeric fields; `none` models the constructor raising `ValueError`. -/
def Shoe.init (country code product cost quantity : List Char) : Option Shoe :=
  match pyFloat cost with
  | none => none
  | some c =>
    if c < 0 then none
    else
      match pyInt quantity with
      | none => none
      | some q =>
        if q < 0 then none
        else some ⟨pyStrip country, pyStrip code, pyStrip product, c, q⟩

/-- `cost * quantity`, the "Value" column of `Shoe.to_dict`. -/
def Shoe.value (s : Shoe) : ℚ := s.cost * s.quantity

/-- Model of class `InventoryManager`'s state: `shoes_list` and `header`. -/
structure InventoryManager where
  shoes_list : List Shoe
  header : List Char
deriving DecidableEq, Repr

/-- One iteration of the body of the loop in `read_shoes_data`: strip the
line, skip it when blank, split on "," requiring exactly five fields, then
construct the `Shoe` (construction failure skips the line). -/
def parseLine (line : List Char) : Option Shoe :=
  let l := pyStrip line
  if l = [] then none
  else
    match splitPy ',' l with
    | [a, b, c, d, e] => Shoe.init a b c d e
    | _ => none

/-- Model of `InventoryManager.read_shoes_data`. The file is `none` when
missing, otherwise the list of its lines (without newline terminators). -/
def read_shoes_data (inv : InventoryManager) (file : Option (List (List Char))) :
    InventoryManager × Bool :=
  match file with
  | none => ({ inv with shoes_list := [] }, false)
  | some [] => ({ inv with shoes_list := [] }, false)
  | some (h :: rest) =>
    let shoes := rest.filterMap parseLine
    ({ shoes_list := shoes, header := pyStrip h }, !shoes.isEmpty)

/-- The line `save_shoes_data` writes for one shoe (without the newline):
`f"{shoe.country},{shoe.code},{shoe.product},{shoe.cost},{shoe.quantity}"`. -/
def save_line (s : Shoe) : List Char :=
  s.country ++ ',' :: (s.code ++ ',' :: (s.product ++ ',' ::
    (showCost s.cost ++ ',' :: showInt s.quantity)))

/-- Model of `InventoryManager.save_shoes_data`: the lines written to the
file (header first); the backup copy and I/O failures are not modelled. -/
def save_shoes_data (inv : InventoryManager) : List (List Char) :=
  inv.header :: inv.shoes_list.map save_line

/-- Model of the validated-cost entry loop in `capture_shoes`: the first
input that parses as a nonnegative float (earlier inputs are re-prompted). -/
def validCost (s : List Char) : Option ℚ :=
  match pyFloat s with
  | none => none
  | some c => if c < 0 then none else some c

/-- Model of the validated-quantity entry loop in `capture_shoes`. -/
def validQty (s : List Char) : Option ℤ :=
  match pyInt s with
  | none => none
  | some q => if q < 0 then none else some q

/-- Model of `InventoryManager.capture_shoes`. The operator's answers are
passed explicitly (`costInputs`/`qtyInputs` are the successive answers to the
re-prompting loops); `saveOk` models the result of `save_shoes_data`. `none`
models the session never completing (a validation loop that never receives a
valid answer). -/
def capture_shoes (inv : InventoryManager) (country code product : List Char)
    (costInputs qtyInputs : List (List Char)) (saveOk : Bool) :
    Option (InventoryManager × Bool) :=
  let country := pyStrip country
  if country = [] then some (inv, false)
  else
    let code := pyStrip code
    if code = [] then some (inv, false)
    else if inv.shoes_list.any (fun s => pyUpper s.code = pyUpper code) then some (inv, false)
    else
      let product := pyStrip product
      if product = [] then some (inv, false)
      else
        match costInputs.find? (fun s => (validCost s).isSome) with
        | none => none
        | some costStr =>
          match qtyInputs.find? (fun s => (validQty s).isSome) with
          | none => none
          | some qtyStr =>
            match Shoe.init country code product costStr qtyStr with
            | none => some (inv, false)
            | some sh => some ({ inv with shoes_list := inv.shoes_list ++ [sh] }, saveOk)

/-- `min(shoe.get_quantity() for shoe in self.shoes_list)` (0 for an empty list,
which `re_stock` rejects before computing it). -/
def minQty (l : List Shoe) : ℤ :=
  match l with
  | [] => 0
  | s :: t => t.foldl (fun m x => min m x.quantity) s.quantity

/-- Positions (in `shoes_list` order) of the shoes tied at the minimum
quantity: the model of `lowest_quantity_shoes`. -/
def tiedIdxs (l : List Shoe) : List ℕ :=
  (List.range l.length).filter (fun i => ((l.get? i).map Shoe.quantity) = some (minQty l))

/-- Replace the quantity of the shoe at position `j` by its value plus `a`. -/
def updateQty : List Shoe → ℕ → ℕ → List Shoe
  | [], _, _ => []
  | s :: t, 0, a => { s with quantity := s.quantity + a } :: t
  | s :: t, j + 1, a => s :: updateQty t j a

/-- Model of `InventoryManager.re_stock`. `idx` is the operator's index into
the tied subset (consulted only when the tie has more than one member, as in
the source), `confirmYes` the yes/no confirmation, and `a` the validated
nonnegative amount to add. `none` models a selection loop that never receives
a valid index; the save step is modelled as succeeding. -/
def re_stock (l : List Shoe) (idx : ℕ) (confirmYes : Bool) (a : ℕ) :
    Option (List Shoe × Bool) :=
  if l = [] then some (l, false)
  else
    match (tiedIdxs l).get? (if 1 < (tiedIdxs l).length then idx else 0) with
    | none => none
    | some j =>
      if confirmYes then some (updateQty l j a, true) else some (l, false)

/-- Model of `InventoryManager.search_shoe`: `none` is the no-result report
(empty inventory, blank code, or no match). -/
def search_shoe (l : List Shoe) (query : List Char) : Option (List Shoe) :=
  if l = [] then none
  else
    let code := pyUpper (pyStrip query)
    if code = [] then none
    else
      let found := l.filter (fun s => pyUpper s.code = code)
      if found = [] then none else some found

/-- Floor division on ℤ, the cents of `v` under round-half-up to two decimal
places: the model of the `'${:.2f}'.format` rendering used for the `Value`
column (exact whenever `v` is a whole number of cents). -/
def centsOf (v : ℚ) : ℤ := Int.fdiv (200 * v.num + (v.den : ℤ)) (2 * (v.den : ℤ))

/-- The currency string `'${:.2f}'.format(v)` for a nonnegative value. -/
def fmtMoney (v : ℚ) : List Char :=
  let c := (centsOf v).toNat
  '$' :: showNat (c / 100) ++ '.' :: padZeros 2 (showNat (c % 100))

/-- Lexicographic comparison of Python strings by code point. -/
def pyStrLt : List Char → List Char → Bool
  | [], [] => false
  | [], _ :: _ => true
  | _ :: _, [] => false
  | a :: as, b :: bs => if a < b then true else if b < a then false else pyStrLt as bs

def insertDescBy (key : Shoe → List Char) (x : Shoe) : List Shoe → List Shoe
  | [] => [x]
  | y :: ys => if pyStrLt (key x) (key y) then y :: insertDescBy key x ys else x :: y :: ys

/-- Descending comparison sort on a key, the model of
`df.sort_values(by='Value', ascending=False)` after the `Value` column has
been replaced by currency strings (ordering among equal keys unspecified in
pandas; a comparison sort is used here). -/
def sortDescBy (key : Shoe → List Char) : List Shoe → List Shoe
  | [] => []
  | x :: xs => insertDescBy key x (sortDescBy key xs)

/-- Model of `InventoryManager.value_per_item`: `none` is the empty-inventory
report; otherwise the displayed row order (sorted on the currency-formatted
`Value` strings, descending) and the reported total (the numeric
`df["Value"].sum()`, computed before formatting). -/
def value_per_item (l : List Shoe) : Option (List Shoe × ℚ) :=
  if l = [] then none
  else some (sortDescBy (fun s => fmtMoney s.value) l, (l.map Shoe.value).sum)

/-- The loop of Python's `max(iterable, key)`: keep the current best, replace
it only when a strictly larger key appears (so the first maximum wins). -/
def maxFold : List Shoe → Shoe → Shoe
  | [], best => best
  | y :: ys, best => maxFold ys (if best.quantity < y.quantity then y else best)

/-- Model of `InventoryManager.highest_qty`:
`max(self.shoes_list, key=lambda x: x.get_quantity())` on a nonempty list. -/
def highest_qty (l : List Shoe) : Option Shoe :=
  match l with
  | [] => none
  | x :: xs => some (maxFold xs x)

/-- The invariants a `Shoe` produced by `parseLine` satisfies: text fields are
already stripped and contain no delimiter, the numeric fields passed
validation, and the cost is an exact decimal fraction. -/
def GoodShoe (s : Shoe) : Prop :=
  pyStrip s.country = s.country ∧ ',' ∉ s.country ∧
  pyStrip s.code = s.code ∧ ',' ∉ s.code ∧
  pyStrip s.product = s.product ∧ ',' ∉ s.product ∧
  0 ≤ s.cost ∧ s.cost.den ∣ 10 ^ s.cost.den ∧ 0 ≤ s.quantity

set_option maxRecDepth 4000

/-- C5: if the store already contains a record whose code equals the entered
code under case-insensitive comparison, `capture_shoes` rejects the entry
(returns `false`) and the whole store — in particular the record sequence and
its length — is unchanged. -/
theorem capture_shoes_duplicate_rejected (inv : InventoryManager)
    (country code product : List Char) (ci qi : List (List Char)) (sv : Bool)
    (hdup : ∃ s ∈ inv.shoes_list, pyUpper s.code = pyUpper (pyStrip code)) :
    capture_shoes inv country code product ci qi sv = some (inv, false) := by
  obtain ⟨s, hs, hcode⟩ := hdup
  unfold capture_shoes
  by_cases h1 : pyStrip country = []
  · simp [h1]
  · by_cases h2 : pyStrip code = []
    · simp [h1, h2]
    · have hany : inv.shoes_list.any (fun t => pyUpper t.code = pyUpper (pyStrip code)) = true := by
        simp only [List.any_eq_true]
        exact ⟨s, hs, by simp [hcode]⟩
      simp [h1, h2, hany]

theorem capture_shoes_duplicate_rejected_witness :
    (∃ s ∈ [Shoe.mk "UK".data "A1".data "Boot".data 9 1],
        pyUpper s.code = pyUpper (pyStrip " a1 ".data)) ∧
    capture_shoes ⟨[Shoe.mk "UK".data "A1".data "Boot".data 9 1], "H".data⟩
        "US".data " a1 ".data "Clog".data ["5".data] ["2".data] true =
      some (⟨[Shoe.mk "UK".data "A1".data "Boot".data 9 1], "H".data⟩, false) :=
  ⟨⟨_, List.mem_singleton_self _, by decide⟩,
    capture_shoes_duplicate_rejected _ _ _ _ _ _ _
      ⟨_, List.mem_singleton_self _, by decide⟩⟩

/-- C10: a failed load is not atomic: whenever `read_shoes_data` reports
failure the in-memory record sequence is empty afterwards, regardless of the
store's prior contents, and if the file existed non-empty the stored header
has been overwritten with the (stripped) first line of the file. -/
theorem read_shoes_data_failed_load_not_atomic (inv : InventoryManager)
    (file : Option (List (List Char))) (hfail : (read_shoes_data inv file).2 = false) :
    (read_shoes_data inv file).1.shoes_list = [] ∧
    ∀ h rest, file = some (h :: rest) → (read_shoes_data inv file).1.header = pyStrip h := by
  match file with
  | none => exact ⟨rfl, by intro h rest hc; cases hc⟩
  | some [] => exact ⟨rfl, by intro h rest hc; cases hc⟩
  | some (h :: rest) =>
    refine ⟨?_, by intro h' rest' hc; cases hc; rfl⟩
    have : (rest.filterMap parseLine).isEmpty = true := by
      simpa [read_shoes_data] using hfail
    simpa [read_shoes_data, List.isEmpty_iff] using this

theorem read_shoes_data_failed_load_not_atomic_witness :
    (read_shoes_data ⟨[Shoe.mk "UK".data "A1".data "Boot".data 9 1], "H".data⟩
        (some ["NewHeader".data, "garbage".data])).2 = false ∧
    (read_shoes_data ⟨[Shoe.mk "UK".data "A1".data "Boot".data 9 1], "H".data⟩
        (some ["NewHeader".data, "garbage".data])).1.shoes_list = [] ∧
    (read_shoes_data ⟨[Shoe.mk "UK".data "A1".data "Boot".data 9 1], "H".data⟩
        (some ["NewHeader".data, "garbage".data])).1.header = pyStrip "NewHeader".data :=
  ⟨by decide,
    (read_shoes_data_failed_load_not_atomic _ _ (by decide)).1,
    (read_shoes_data_failed_load_not_atomic _ _ (by decide)).2 _ _ rfl⟩

/-- C4: for every input file, `read_shoes_data` returns `true` iff at least
one record was successfully parsed, and on a file with a header and data
lines the number of records produced equals the number of data lines that
parse (malformed or invalid lines are skipped without aborting the load). -/
theorem read_shoes_data_success_iff (inv : InventoryManager)
    (file : Option (List (List Char))) :
    ((read_shoes_data inv file).2 = true ↔ (read_shoes_data inv file).1.shoes_list ≠ []) ∧
    ∀ h rest, file = some (h :: rest) →
      (read_shoes_data inv file).1.shoes_list.length
        = (rest.filter (fun line => (parseLine line).isSome)).length := by
  constructor
  · match file with
    | none => simp [read_shoes_data]
    | some [] => simp [read_shoes_data]
    | some (h :: rest) => simp [read_shoes_data, List.isEmpty_iff]
  · intro h rest hc
    subst hc
    show (rest.filterMap parseLine).length = _
    induction rest with
    | nil => rfl
    | cons x xs ih =>
      cases hx : parseLine x <;>
        simp [List.filterMap_cons, List.filter_cons, hx, ih]

theorem read_shoes_data_success_iff_witness :
    ((read_shoes_data ⟨[], "H".data⟩ (some ["Header".data, "US,A1,Runner,50.00,3".data,
        "bad".data, "".data])).2 = true ↔
      (read_shoes_data ⟨[], "H".data⟩ (some ["Header".data, "US,A1,Runner,50.00,3".data,
        "bad".data, "".data])).1.shoes_list ≠ []) ∧
    (read_shoes_data ⟨[], "H".data⟩ (some ["Header".data, "US,A1,Runner,50.00,3".data,
        "bad".data, "".data])).1.shoes_list.length
      = (["US,A1,Runner,50.00,3".data, "bad".data, "".data].filter
          (fun line => (parseLine line).isSome)).length :=
  ⟨(read_shoes_data_success_iff _ _).1,
    (read_shoes_data_success_iff _ _).2 _ _ rfl⟩

/-- C3: record construction from five raw text fields succeeds exactly when
the cost field parses as a nonnegative decimal number and the quantity field
parses as a nonnegative integer; on success the record carries the three text
fields with surrounding whitespace trimmed, and on failure no record is
produced (the constructor returns `none`). -/
theorem Shoe.init_validation (country code product cost quantity : List Char) :
    (∀ s, Shoe.init country code product cost quantity = some s →
      s.country = pyStrip country ∧ s.code = pyStrip code ∧ s.product = pyStrip product) ∧
    ((∃ s, Shoe.init country code product cost quantity = some s) ↔
      (∃ c, pyFloat cost = some c ∧ 0 ≤ c) ∧ (∃ q, pyInt quantity = some q ∧ 0 ≤ q)) := by
  unfold Shoe.init
  cases hc : pyFloat cost with
  | none => simp
  | some c =>
    by_cases hneg : c < 0
    · simp only [hneg, if_true]
      refine ⟨(fun s h => nomatch h), ?_⟩
      constructor
      · rintro ⟨s, h⟩; cases h
      · rintro ⟨⟨c', hc', h0⟩, -⟩
        cases hc'
        exact absurd h0 (not_le.2 hneg)
    · simp only [hneg, if_false]
      cases hq : pyInt quantity with
      | none => simp
      | some q =>
        by_cases hqn : q < 0
        · simp only [hqn, if_true]
          refine ⟨(fun s h => nomatch h), ?_⟩
          constructor
          · rintro ⟨s, h⟩; cases h
          · rintro ⟨-, ⟨q', hq', h0⟩⟩
            cases hq'
            exact absurd h0 (not_le.2 hqn)
        · simp only [hqn, if_false]
          refine ⟨fun s h => ?_, ?_⟩
          · cases h; exact ⟨rfl, rfl, rfl⟩
          · constructor
            · intro _
              exact ⟨⟨c, rfl, not_lt.1 hneg⟩, ⟨q, rfl, not_lt.1 hqn⟩⟩
            · intro _
              exact ⟨_, rfl⟩

theorem Shoe.init_validation_witness :
    ((Shoe.mk "US".data "A1".data "Runner".data 50 3).country = pyStrip " US ".data ∧
     (Shoe.mk "US".data "A1".data "Runner".data 50 3).code = pyStrip " A1".data ∧
     (Shoe.mk "US".data "A1".data "Runner".data 50 3).product = pyStrip "Runner ".data) ∧
    ((∃ s, Shoe.init " US ".data " A1".data "Runner ".data "50.00".data " 3".data = some s) ↔
      (∃ c, pyFloat "50.00".data = some c ∧ 0 ≤ c) ∧
      (∃ q, pyInt " 3".data = some q ∧ 0 ≤ q)) :=
  ⟨(Shoe.init_validation " US ".data " A1".data "Runner ".data "50.00".data " 3".data).1
      (Shoe.mk "US".data "A1".data "Runner".data 50 3) (by with_unfolding_all decide),
   (Shoe.init_validation " US ".data " A1".data "Runner ".data "50.00".data " 3".data).2⟩

/-- C8: for every record list and non-blank query, `search_shoe` returns
exactly the records whose code equals the query under case-insensitive
comparison — the result list is the filter of the record list, preserving
duplicates — and an empty result is reported as `none` rather than an
error. -/
theorem search_shoe_case_insensitive (l : List Shoe) (q : List Char)
    (hq : pyStrip q ≠ []) :
    (search_shoe l q = none → ∀ s ∈ l, pyUpper s.code ≠ pyUpper (pyStrip q)) ∧
    (∀ r, search_shoe l q = some r →
      r = l.filter (fun s => pyUpper s.code = pyUpper (pyStrip q)) ∧ r ≠ []) := by
  unfold search_shoe
  by_cases hl : l = []
  · subst hl
    exact ⟨fun _ s hs => absurd hs (List.not_mem_nil s), fun r hr => by simp at hr⟩
  · simp only [hl, if_false]
    have hcode : pyUpper (pyStrip q) ≠ [] := by
      intro h
      exact hq (List.map_eq_nil_iff.1 h)
    simp only [hcode, if_false]
    by_cases hfound : l.filter (fun s => pyUpper s.code = pyUpper (pyStrip q)) = []
    · simp only [hfound, if_true]
      refine ⟨(fun _ s hs => ?_), fun r hr => nomatch hr⟩
      have := List.filter_eq_nil_iff.1 hfound s hs
      simpa using this
    · simp only [hfound, if_false]
      exact ⟨(fun h => nomatch h), fun r hr => by cases hr; exact ⟨rfl, hfound⟩⟩

theorem search_shoe_case_insensitive_witness :
    pyStrip " a1 ".data ≠ [] ∧
    (search_shoe [Shoe.mk "UK".data "A1".data "Boot".data 9 1,
        Shoe.mk "DE".data "B2".data "Clog".data 5 2,
        Shoe.mk "FR".data "a1".data "Moc".data 7 4] " a1 ".data =
      some [Shoe.mk "UK".data "A1".data "Boot".data 9 1,
        Shoe.mk "FR".data "a1".data "Moc".data 7 4] →
      [Shoe.mk "UK".data "A1".data "Boot".data 9 1,
        Shoe.mk "FR".data "a1".data "Moc".data 7 4] =
        ([Shoe.mk "UK".data "A1".data "Boot".data 9 1,
          Shoe.mk "DE".data "B2".data "Clog".data 5 2,
          Shoe.mk "FR".data "a1".data "Moc".data 7 4].filter
            (fun s => pyUpper s.code = pyUpper (pyStrip " a1 ".data))) ∧
        [Shoe.mk "UK".data "A1".data "Boot".data 9 1,
          Shoe.mk "FR".data "a1".data "Moc".data 7 4] ≠ []) :=
  ⟨by decide, (search_shoe_case_insensitive _ _ (by decide)).2 _⟩

/-- C9: for every nonempty record list, the total reported by
`value_per_item` equals the sum over all records of cost × quantity. -/
theorem value_per_item_total_eq_sum (l : List Shoe) (hl : l ≠ []) :
    ∃ rows, value_per_item l = some (rows, (l.map (fun s => s.cost * (s.quantity : ℚ))).sum) := by
  refine ⟨sortDescBy (fun s => fmtMoney s.value) l, ?_⟩
  unfold value_per_item
  rw [if_neg hl]
  rfl

theorem value_per_item_total_eq_sum_witness :
    ([Shoe.mk "UK".data "A1".data "Boot".data 9 2,
      Shoe.mk "DE".data "B2".data "Clog".data 5 3] ≠ ([] : List Shoe)) ∧
    ∃ rows, value_per_item [Shoe.mk "UK".data "A1".data "Boot".data 9 2,
        Shoe.mk "DE".data "B2".data "Clog".data 5 3] =
      some (rows, ([Shoe.mk "UK".data "A1".data "Boot".data 9 2,
        Shoe.mk "DE".data "B2".data "Clog".data 5 3].map
          (fun s => s.cost * (s.quantity : ℚ))).sum) :=
  ⟨by decide, value_per_item_total_eq_sum _ (by decide)⟩

/-- C1 (counterexample evidence): the display order of `value_per_item` is
the descending order of the currency-formatted strings, not of the numeric
values.  On two records of values 9 and 100 the code displays the value-9
record first (because `"$9.00" > "$100.00"` as strings), violating the
claimed non-increasing-by-value order. -/
theorem value_per_item_display_order_bug :
    value_per_item [Shoe.mk "UK".data "A1".data "Boot".data 9 1,
        Shoe.mk "DE".data "B2".data "Clog".data 100 1] =
      some ([Shoe.mk "UK".data "A1".data "Boot".data 9 1,
        Shoe.mk "DE".data "B2".data "Clog".data 100 1], 109) ∧
    (Shoe.mk "UK".data "A1".data "Boot".data 9 1).value <
      (Shoe.mk "DE".data "B2".data "Clog".data 100 1).value := by
  constructor
  · with_unfolding_all decide
  · with_unfolding_all decide

lemma maxFold_spec (xs : List Shoe) : ∀ best : Shoe,
    (∀ t ∈ best :: xs, t.quantity ≤ (maxFold xs best).quantity) ∧
    ∃ pre suf, best :: xs = pre ++ (maxFold xs best) :: suf ∧
      ∀ t ∈ pre, t.quantity < (maxFold xs best).quantity := by
  induction xs with
  | nil =>
    intro best
    refine ⟨?_, [], [], rfl, ?_⟩ <;> simp [maxFold]
  | cons y ys ih =>
    intro best
    by_cases h : best.quantity < y.quantity
    · have hstep : maxFold (y :: ys) best = maxFold ys y := by
        simp [maxFold, h]
      obtain ⟨hle, pre', suf', hdec, hpre⟩ := ih y
      have hyr : y.quantity ≤ (maxFold ys y).quantity :=
        hle y (List.mem_cons_self y ys)
      rw [hstep]
      refine ⟨?_, best :: pre', suf', ?_, ?_⟩
      · intro t ht
        rcases List.mem_cons.1 ht with rfl | ht
        · exact le_of_lt (lt_of_lt_of_le h hyr)
        · exact hle t ht
      · simpa using congrArg (List.cons best) hdec
      · intro t ht
        rcases List.mem_cons.1 ht with rfl | ht
        · exact lt_of_lt_of_le h hyr
        · exact hpre t ht
    · have hstep : maxFold (y :: ys) best = maxFold ys best := by
        simp [maxFold, h]
      obtain ⟨hle, pre', suf', hdec, hpre⟩ := ih best
      have hyb : y.quantity ≤ best.quantity := not_lt.1 h
      have hbr : best.quantity ≤ (maxFold ys best).quantity :=
        hle best (List.mem_cons_self best ys)
      rw [hstep]
      refine ⟨?_, ?_⟩
      · intro t ht
        rcases List.mem_cons.1 ht with rfl | ht
        · exact hbr
        · rcases List.mem_cons.1 ht with rfl | ht
          · exact le_trans hyb hbr
          · exact hle t (List.mem_cons_of_mem best ht)
      · cases pre' with
        | nil =>
          have hbest : best = maxFold ys best := by
            simpa using congrArg List.head? hdec
          refine ⟨[], y :: ys, ?_, by simp⟩
          simpa using congrArg (List.cons · (y :: ys)) hbest
        | cons p pre'' =>
          rw [List.cons_append] at hdec
          obtain ⟨hp, htail⟩ := List.cons_eq_cons.1 hdec
          subst hp
          have hbe : best.quantity < (maxFold ys best).quantity :=
            hpre best (List.mem_cons_self best pre'')
          refine ⟨best :: y :: pre'', suf', ?_, ?_⟩
          · conv_lhs => rw [htail]
            simp
          · intro t ht
            rcases List.mem_cons.1 ht with rfl | ht
            · exact hbe
            · rcases List.mem_cons.1 ht with rfl | ht
              · exact lt_of_le_of_lt hyb hbe
              · exact hpre t (List.mem_cons_of_mem best ht)

/-- C6: `highest_qty` returns `none` exactly on the empty list (reported,
not an error); on a nonempty list it returns a record whose quantity is ≥
every record's quantity and which is the earliest such record in sequence
order (every record before it has strictly smaller quantity). -/
theorem highest_qty_first_max (l : List Shoe) :
    (highest_qty l = none ↔ l = []) ∧
    ∀ s, highest_qty l = some s →
      (∀ t ∈ l, t.quantity ≤ s.quantity) ∧
      ∃ pre suf, l = pre ++ s :: suf ∧ ∀ t ∈ pre, t.quantity < s.quantity := by
  cases l with
  | nil => exact ⟨by simp [highest_qty], fun s h => nomatch h⟩
  | cons x xs =>
    refine ⟨by simp [highest_qty], fun s h => ?_⟩
    have h' : maxFold xs x = s := by
      simpa [highest_qty] using h
    obtain ⟨hle, pre, suf, hdec, hpre⟩ := maxFold_spec xs x
    rw [h'] at hle hdec hpre
    exact ⟨fun t ht => hle t ht, pre, suf, hdec, hpre⟩

theorem highest_qty_first_max_witness :
    (highest_qty [Shoe.mk "UK".data "A1".data "Boot".data 9 3,
        Shoe.mk "DE".data "B2".data "Clog".data 5 3] = none ↔
      ([Shoe.mk "UK".data "A1".data "Boot".data 9 3,
        Shoe.mk "DE".data "B2".data "Clog".data 5 3] : List Shoe) = []) ∧
    ((∀ t ∈ [Shoe.mk "UK".data "A1".data "Boot".data 9 3,
        Shoe.mk "DE".data "B2".data "Clog".data 5 3],
        t.quantity ≤ (Shoe.mk "UK".data "A1".data "Boot".data 9 3).quantity) ∧
      ∃ pre suf, [Shoe.mk "UK".data "A1".data "Boot".data 9 3,
          Shoe.mk "DE".data "B2".data "Clog".data 5 3] =
          pre ++ (Shoe.mk "UK".data "A1".data "Boot".data 9 3) :: suf ∧
        ∀ t ∈ pre, t.quantity < (Shoe.mk "UK".data "A1".data "Boot".data 9 3).quantity) :=
  ⟨(highest_qty_first_max _).1,
    (highest_qty_first_max _).2 _ (by with_unfolding_all decide)⟩

lemma foldl_min_le_init (xs : List Shoe) :
    ∀ a : ℤ, xs.foldl (fun m x => min m x.quantity) a ≤ a := by
  induction xs with
  | nil => intro a; exact le_refl a
  | cons x t ih =>
    intro a
    exact le_trans (ih (min a x.quantity)) (min_le_left _ _)

lemma foldl_min_le_mem (xs : List Shoe) :
    ∀ (a : ℤ) (t : Shoe), t ∈ xs → xs.foldl (fun m x => min m x.quantity) a ≤ t.quantity := by
  induction xs with
  | nil => intro a t ht; exact absurd ht (List.not_mem_nil t)
  | cons x s ih =>
    intro a t ht
    rcases List.mem_cons.1 ht with rfl | ht
    · exact le_trans (foldl_min_le_init s (min a t.quantity)) (min_le_right _ _)
    · exact ih (min a x.quantity) t ht

lemma minQty_le (l : List Shoe) (t : Shoe) (ht : t ∈ l) : minQty l ≤ t.quantity := by
  cases l with
  | nil => exact absurd ht (List.not_mem_nil t)
  | cons s xs =>
    rcases List.mem_cons.1 ht with rfl | ht
    · exact foldl_min_le_init xs t.quantity
    · exact foldl_min_le_mem xs s.quantity t ht

lemma updateQty_length : ∀ (l : List Shoe) (j a : ℕ), (updateQty l j a).length = l.length
  | [], _, _ => rfl
  | _ :: t, 0, a => by simp [updateQty]
  | _ :: t, j + 1, a => by simp [updateQty, updateQty_length t j a]

lemma updateQty_get_same :
    ∀ (l : List Shoe) (j a : ℕ) (s : Shoe), l.get? j = some s →
      (updateQty l j a).get? j = some { s with quantity := s.quantity + a }
  | [], j, _, s, h => nomatch h
  | x :: t, 0, a, s, h => by
    have : x = s := by simpa using h
    subst this
    rfl
  | x :: t, j + 1, a, s, h => by
    simpa [updateQty] using updateQty_get_same t j a s (by simpa using h)

lemma updateQty_get_other :
    ∀ (l : List Shoe) (j a i : ℕ), i ≠ j → (updateQty l j a).get? i = l.get? i
  | [], _, _, _, _ => rfl
  | x :: t, 0, a, 0, h => absurd rfl h
  | x :: t, 0, a, i + 1, _ => by simp [updateQty]
  | x :: t, j + 1, a, 0, _ => by simp [updateQty]
  | x :: t, j + 1, a, i + 1, h => by
    simpa [updateQty] using updateQty_get_other t j a i (fun e => h (by simp [e]))

/-- C2: a completed restock selects a record of minimum quantity among all
records, replaces its quantity by its prior quantity plus the nonnegative
amount `a`, and leaves every other record (and the list length)
unchanged. -/
theorem re_stock_adds_to_minimum (l : List Shoe) (idx a : ℕ) (j : ℕ) (l' : List Shoe)
    (hj : (tiedIdxs l).get? (if 1 < (tiedIdxs l).length then idx else 0) = some j)
    (hr : re_stock l idx true a = some (l', true)) :
    ∃ s, l.get? j = some s ∧ (∀ t ∈ l, s.quantity ≤ t.quantity) ∧
      l'.get? j = some { s with quantity := s.quantity + a } ∧
      (∀ i, i ≠ j → l'.get? i = l.get? i) ∧ l'.length = l.length := by
  have hl : l ≠ [] := by
    intro h
    subst h
    rw [re_stock, if_pos rfl] at hr
    cases hr
  rw [re_stock, if_neg hl, hj] at hr
  have hupd : updateQty l j a = l' := by
    simp at hr
    exact hr
  have hjmem : j ∈ tiedIdxs l := List.get?_mem hj
  have hjq : (l.get? j).map Shoe.quantity = some (minQty l) := by
    have := (List.mem_filter.1 hjmem).2
    exact of_decide_eq_true this
  cases hgs : l.get? j with
  | none => rw [hgs] at hjq; cases hjq
  | some s =>
    rw [hgs] at hjq
    have hsq : s.quantity = minQty l := by simpa using hjq
    refine ⟨s, rfl, ?_, ?_, ?_, ?_⟩
    · intro t ht
      rw [hsq]
      exact minQty_le l t ht
    · rw [← hupd]
      exact updateQty_get_same l j a s hgs
    · intro i hi
      rw [← hupd]
      exact updateQty_get_other l j a i hi
    · rw [← hupd]
      exact updateQty_length l j a

theorem re_stock_adds_to_minimum_witness :
    ((tiedIdxs [Shoe.mk "UK".data "A1".data "Boot".data 9 5,
        Shoe.mk "DE".data "B2".data "Clog".data 100 3]).get?
      (if 1 < (tiedIdxs [Shoe.mk "UK".data "A1".data "Boot".data 9 5,
        Shoe.mk "DE".data "B2".data "Clog".data 100 3]).length then 0 else 0) = some 1) ∧
    ∃ s, [Shoe.mk "UK".data "A1".data "Boot".data 9 5,
        Shoe.mk "DE".data "B2".data "Clog".data 100 3].get? 1 = some s ∧
      (∀ t ∈ [Shoe.mk "UK".data "A1".data "Boot".data 9 5,
        Shoe.mk "DE".data "B2".data "Clog".data 100 3], s.quantity ≤ t.quantity) ∧
      [Shoe.mk "UK".data "A1".data "Boot".data 9 5,
        Shoe.mk "DE".data "B2".data "Clog".data 100 7].get? 1 =
          some { s with quantity := s.quantity + 4 } ∧
      (∀ i, i ≠ 1 → [Shoe.mk "UK".data "A1".data "Boot".data 9 5,
          Shoe.mk "DE".data "B2".data "Clog".data 100 7].get? i =
        [Shoe.mk "UK".data "A1".data "Boot".data 9 5,
          Shoe.mk "DE".data "B2".data "Clog".data 100 3].get? i) ∧
      ([Shoe.mk "UK".data "A1".data "Boot".data 9 5,
        Shoe.mk "DE".data "B2".data "Clog".data 100 7] : List Shoe).length =
      ([Shoe.mk "UK".data "A1".data "Boot".data 9 5,
        Shoe.mk "DE".data "B2".data "Clog".data 100 3] : List Shoe).length :=
  ⟨by with_unfolding_all decide,
    re_stock_adds_to_minimum _ 0 4 1 _ (by with_unfolding_all decide)
      (by with_unfolding_all decide)⟩

lemma dropWhile_head_false (p : Char → Bool) :
    ∀ (l : List Char) (c : Char), (l.dropWhile p).head? = some c → p c = false := by
  intro l
  induction l with
  | nil => intro c h; cases h
  | cons a t ih =>
    intro c h
    rw [List.dropWhile_cons] at h
    by_cases hp : p a
    · rw [if_pos hp] at h
      exact ih c h
    · rw [if_neg hp] at h
      cases h
      exact Bool.of_not_eq_true hp

lemma dropWhile_eq_self_of_head (p : Char → Bool) (l : List Char)
    (h : ∀ c, l.head? = some c → p c = false) : l.dropWhile p = l := by
  cases l with
  | nil => rfl
  | cons a t =>
    rw [List.dropWhile_cons, if_neg]
    rw [h a rfl]
    simp

lemma pyStrip_head_false (l : List Char) (c : Char)
    (h : (pyStrip l).head? = some c) : isPySpace c = false := by
  unfold pyStrip at h
  rw [List.head?_reverse] at h
  obtain ⟨u, hu⟩ :=
    List.dropWhile_suffix (l := (l.dropWhile isPySpace).reverse) isPySpace
  have h2 := congrArg List.getLast? hu
  rw [List.getLast?_append, h] at h2
  rw [List.getLast?_reverse] at h2
  have h3 : some c = (l.dropWhile isPySpace).head? := h2
  exact dropWhile_head_false isPySpace l c h3.symm

lemma pyStrip_getLast_false (l : List Char) (c : Char)
    (h : (pyStrip l).getLast? = some c) : isPySpace c = false := by
  unfold pyStrip at h
  rw [List.getLast?_reverse] at h
  exact dropWhile_head_false isPySpace _ c h

lemma pyStrip_eq_self (l : List Char)
    (h1 : ∀ c, l.head? = some c → isPySpace c = false)
    (h2 : ∀ c, l.getLast? = some c → isPySpace c = false) : pyStrip l = l := by
  unfold pyStrip
  rw [dropWhile_eq_self_of_head _ l h1]
  rw [dropWhile_eq_self_of_head _ l.reverse
    (fun c hc => h2 c (by rwa [List.head?_reverse] at hc))]
  exact List.reverse_reverse l

lemma pyStrip_idem (l : List Char) : pyStrip (pyStrip l) = pyStrip l :=
  pyStrip_eq_self _ (pyStrip_head_false l) (pyStrip_getLast_false l)

lemma mem_pyStrip (c : Char) (l : List Char) (h : c ∈ pyStrip l) : c ∈ l := by
  unfold pyStrip at h
  rw [List.mem_reverse] at h
  have h2 := (List.dropWhile_sublist (l := (l.dropWhile isPySpace).reverse) isPySpace).subset h
  rw [List.mem_reverse] at h2
  exact (List.dropWhile_sublist (l := l) isPySpace).subset h2

lemma splitPy_ne_nil (sep : Char) : ∀ l : List Char, splitPy sep l ≠ [] := by
  intro l
  induction l with
  | nil => simp [splitPy]
  | cons c cs ih =>
    unfold splitPy
    by_cases hc : c = sep
    · simp [hc]
    · rcases h : splitPy sep cs with _ | ⟨g, gs⟩
      · exact absurd h ih
      · simp [hc, h]

lemma splitPy_no_sep (sep : Char) : ∀ l : List Char, sep ∉ l → splitPy sep l = [l] := by
  intro l
  induction l with
  | nil => intro _; rfl
  | cons c cs ih =>
    intro h
    have hc : ¬c = sep := fun e => h (e ▸ List.mem_cons_self c cs)
    have hcs : sep ∉ cs := fun e => h (List.mem_cons_of_mem c e)
    unfold splitPy
    rw [if_neg hc, ih hcs]

lemma splitPy_append (sep : Char) (A B : List Char) (h : sep ∉ A) :
    splitPy sep (A ++ sep :: B) = A :: splitPy sep B := by
  induction A with
  | nil =>
    show splitPy sep (sep :: B) = [] :: splitPy sep B
    conv_lhs => rw [splitPy]
    rw [if_pos rfl]
  | cons a A' ih =>
    have ha : ¬a = sep := fun e => h (e ▸ List.mem_cons_self a A')
    have hA : sep ∉ A' := fun e => h (List.mem_cons_of_mem a e)
    show splitPy sep (a :: (A' ++ sep :: B)) = (a :: A') :: splitPy sep B
    conv_lhs => rw [splitPy]
    rw [if_neg ha, ih hA]

lemma mem_splitPy_not_sep (sep : Char) :
    ∀ (l g : List Char), g ∈ splitPy sep l → sep ∉ g := by
  intro l
  induction l with
  | nil =>
    intro g hg
    have : g = [] := by simpa [splitPy] using hg
    subst this
    exact List.not_mem_nil sep
  | cons c cs ih =>
    intro g hg
    unfold splitPy at hg
    by_cases hc : c = sep
    · rw [if_pos hc] at hg
      rcases List.mem_cons.1 hg with rfl | hg
      · exact List.not_mem_nil sep
      · exact ih g hg
    · rw [if_neg hc] at hg
      rcases h : splitPy sep cs with _ | ⟨g', gs⟩
      · exact absurd h (splitPy_ne_nil sep cs)
      · rw [h] at hg
        rcases List.mem_cons.1 hg with rfl | hg
        · intro hmem
          rcases List.mem_cons.1 hmem with e | hmem
          · exact hc e.symm
          · exact ih g' (h ▸ List.mem_cons_self g' gs) hmem
        · exact ih g (h ▸ List.mem_cons_of_mem g' hg)

lemma digitCh_toNat : ∀ d < 10, (digitCh d).toNat = 48 + d := by decide

lemma digitCh_isDigit : ∀ d < 10, isDigitCh (digitCh d) = true := by decide

lemma isDigitCh_not_space (c : Char) (h : isDigitCh c = true) : isPySpace c = false := by
  have h' := of_decide_eq_true h
  have e1 : c ≠ ' ' := by rintro rfl; exact absurd h' (by decide)
  have e2 : c ≠ '\t' := by rintro rfl; exact absurd h' (by decide)
  have e3 : c ≠ '\n' := by rintro rfl; exact absurd h' (by decide)
  have e4 : c ≠ '\r' := by rintro rfl; exact absurd h' (by decide)
  simp [isPySpace, e1, e2, e3, e4]

lemma isDigitCh_ne_plus (c : Char) (h : isDigitCh c = true) : c ≠ '+' := by
  rintro rfl; exact absurd (of_decide_eq_true h) (by decide)

lemma isDigitCh_ne_minus (c : Char) (h : isDigitCh c = true) : c ≠ '-' := by
  rintro rfl; exact absurd (of_decide_eq_true h) (by decide)

lemma isDigitCh_ne_dot (c : Char) (h : isDigitCh c = true) : c ≠ '.' := by
  rintro rfl; exact absurd (of_decide_eq_true h) (by decide)

lemma isDigitCh_ne_comma (c : Char) (h : isDigitCh c = true) : c ≠ ',' := by
  rintro rfl; exact absurd (of_decide_eq_true h) (by decide)

lemma showNatAux_digits :
    ∀ (fuel n : ℕ) (c : Char), c ∈ showNatAux fuel n → isDigitCh c = true := by
  intro fuel
  induction fuel with
  | zero => intro n c h; exact absurd h (List.not_mem_nil c)
  | succ f ih =>
    intro n c h
    cases n with
    | zero =>
      rw [showNatAux, if_pos rfl] at h
      exact absurd h (List.not_mem_nil c)
    | succ m =>
      rw [showNatAux, if_neg (Nat.succ_ne_zero m)] at h
      rcases List.mem_append.1 h with h | h
      · exact ih _ c h
      · have : c = digitCh ((m + 1) % 10) := by simpa using h
        subst this
        exact digitCh_isDigit _ (Nat.mod_lt _ (by norm_num))

lemma showNat_digits (n : ℕ) (c : Char) (h : c ∈ showNat n) : isDigitCh c = true := by
  unfold showNat at h
  by_cases hn : n = 0
  · rw [if_pos hn] at h
    have : c = '0' := by simpa using h
    subst this
    decide
  · rw [if_neg hn] at h
    exact showNatAux_digits n n c h

lemma digitsToNat_append_singleton (xs : List Char) (c : Char) :
    digitsToNat (xs ++ [c]) = 10 * digitsToNat xs + (c.toNat - 48) := by
  simp [digitsToNat, List.foldl_append]

lemma showNatAux_val : ∀ fuel n : ℕ, n ≤ fuel → digitsToNat (showNatAux fuel n) = n := by
  intro fuel
  induction fuel with
  | zero =>
    intro n hn
    interval_cases n
    rfl
  | succ f ih =>
    intro n hn
    cases n with
    | zero => rfl
    | succ m =>
      rw [showNatAux, if_neg (Nat.succ_ne_zero m), digitsToNat_append_singleton]
      have hdiv : (m + 1) / 10 ≤ f := by
        have := Nat.div_lt_self (Nat.succ_pos m) (by norm_num : 1 < 10)
        omega
      rw [ih _ hdiv, digitCh_toNat _ (Nat.mod_lt _ (by norm_num))]
      omega

lemma showNat_val (n : ℕ) : digitsToNat (showNat n) = n := by
  unfold showNat
  by_cases hn : n = 0
  · rw [if_pos hn, hn]; rfl
  · rw [if_neg hn]
    exact showNatAux_val n n le_rfl

lemma showNat_ne_nil (n : ℕ) : showNat n ≠ [] := by
  unfold showNat
  by_cases hn : n = 0
  · rw [if_pos hn]; simp
  · rw [if_neg hn]
    cases n with
    | zero => exact absurd rfl hn
    | succ m =>
      rw [showNatAux, if_neg (Nat.succ_ne_zero m)]
      simp

lemma showNatAux_length :
    ∀ fuel n k : ℕ, n < 10 ^ k → (showNatAux fuel n).length ≤ k := by
  intro fuel
  induction fuel with
  | zero => intro n k _; simp [showNatAux]
  | succ f ih =>
    intro n k hn
    cases n with
    | zero => simp [showNatAux]
    | succ m =>
      rw [showNatAux, if_neg (Nat.succ_ne_zero m)]
      have hk : k ≠ 0 := by
        rintro rfl
        simp at hn
      obtain ⟨k', rfl⟩ : ∃ k', k = k' + 1 := ⟨k - 1, by omega⟩
      have hdiv : (m + 1) / 10 < 10 ^ k' := by
        rw [Nat.div_lt_iff_lt_mul (by norm_num : 0 < 10)]
        calc m + 1 < 10 ^ (k' + 1) := hn
        _ = 10 ^ k' * 10 := by ring
      have := ih _ k' hdiv
      simp only [List.length_append, List.length_cons, List.length_nil]
      omega

lemma showNat_length (n k : ℕ) (h : n < 10 ^ k) (hk : 1 ≤ k) :
    (showNat n).length ≤ k := by
  unfold showNat
  by_cases hn : n = 0
  · rw [if_pos hn]; simpa using hk
  · rw [if_neg hn]
    exact showNatAux_length n n k h

lemma digitsToNat_replicate_zero : ∀ m : ℕ, digitsToNat (List.replicate m '0') = 0 := by
  intro m
  induction m with
  | zero => rfl
  | succ m ih =>
    rw [List.replicate_succ]
    show digitsToNat ('0' :: List.replicate m '0') = 0
    unfold digitsToNat at ih ⊢
    simpa using ih

lemma digitsToNat_padZeros (k : ℕ) (cs : List Char) :
    digitsToNat (padZeros k cs) = digitsToNat cs := by
  unfold padZeros digitsToNat
  rw [List.foldl_append]
  have h0 : List.foldl (fun a c => 10 * a + (c.toNat - 48)) 0
      (List.replicate (k - cs.length) '0') = 0 := digitsToNat_replicate_zero _
  rw [h0]

lemma padZeros_length (k : ℕ) (cs : List Char) (h : cs.length ≤ k) :
    (padZeros k cs).length = k := by
  simp [padZeros]
  omega

lemma padZeros_digits (k : ℕ) (cs : List Char) (c : Char)
    (h : c ∈ padZeros k cs) (hcs : ∀ c ∈ cs, isDigitCh c = true) : isDigitCh c = true := by
  rcases List.mem_append.1 h with h | h
  · have : c = '0' := List.eq_of_mem_replicate h
    subst this
    decide
  · exact hcs c h

lemma padZeros_ne_nil (k : ℕ) (cs : List Char) (h : cs ≠ []) : padZeros k cs ≠ [] := by
  unfold padZeros
  simp [h]

lemma dvd_ten_pow_self (d k : ℕ) (h : d ∣ 10 ^ k) : d ∣ 10 ^ d := by
  have h2 : d ∣ 2 ^ k * 5 ^ k := by
    have e : (10 : ℕ) ^ k = 2 ^ k * 5 ^ k := by
      rw [← Nat.mul_pow]
    rwa [e] at h
  obtain ⟨a, b, ha, hb, hab⟩ := exists_dvd_and_dvd_of_dvd_mul h2
  obtain ⟨α, hαk, rfl⟩ := (Nat.dvd_prime_pow Nat.prime_two).1 ha
  obtain ⟨β, hβk, rfl⟩ := (Nat.dvd_prime_pow (by norm_num : Nat.Prime 5)).1 hb
  subst hab
  have hα : α ≤ 2 ^ α * 5 ^ β :=
    le_of_lt (lt_of_lt_of_le (Nat.lt_two_pow α)
      (Nat.le_mul_of_pos_right _ (pow_pos (by norm_num) β)))
  have hβ : β ≤ 2 ^ α * 5 ^ β :=
    le_of_lt (lt_of_lt_of_le (Nat.lt_pow_self (by norm_num) β)
      (Nat.le_mul_of_pos_left _ (pow_pos (by norm_num) α)))
  calc 2 ^ α * 5 ^ β ∣ 2 ^ (2 ^ α * 5 ^ β) * 5 ^ (2 ^ α * 5 ^ β) :=
      mul_dvd_mul (pow_dvd_pow 2 hα) (pow_dvd_pow 5 hβ)
  _ = 10 ^ (2 ^ α * 5 ^ β) := by rw [← Nat.mul_pow]

lemma parseUDec_nonneg (cs : List Char) (q : ℚ) (h : parseUDec cs = some q) : 0 ≤ q := by
  unfold parseUDec at h
  split at h
  · split at h
    · cases h
      exact Nat.cast_nonneg _
    · cases h
  · split at h
    · cases h
      exact add_nonneg (Nat.cast_nonneg _)
        (div_nonneg (Nat.cast_nonneg _) (by positivity))
    · cases h
  · cases h

lemma parseUDec_den (cs : List Char) (q : ℚ) (h : parseUDec cs = some q) :
    q.den ∣ 10 ^ q.den := by
  unfold parseUDec at h
  split at h
  · split at h
    · cases h
      simp
    · cases h
  next ip fp heq =>
    split at h
    · cases h
      have h10 : ((10 : ℚ)) ^ fp.length ≠ 0 := by positivity
      have hq : (digitsToNat ip : ℚ) + (digitsToNat fp : ℚ) / (10 : ℚ) ^ fp.length
          = (((digitsToNat ip * 10 ^ fp.length + digitsToNat fp : ℕ) : ℤ) : ℚ)
            / (((10 ^ fp.length : ℕ) : ℤ) : ℚ) := by
        push_cast
        field_simp
      have hdvd := Rat.den_dvd ((digitsToNat ip * 10 ^ fp.length + digitsToNat fp : ℕ) : ℤ)
        ((10 ^ fp.length : ℕ) : ℤ)
      rw [Rat.divInt_eq_div, ← hq] at hdvd
      have hnat : ((digitsToNat ip : ℚ) + (digitsToNat fp : ℚ) / (10 : ℚ) ^ fp.length).den
          ∣ 10 ^ fp.length := by exact_mod_cast hdvd
      exact dvd_ten_pow_self _ fp.length hnat
    · cases h
  · cases h

lemma pyFloat_den (s : List Char) (q : ℚ) (h : pyFloat s = some q) :
    q.den ∣ 10 ^ q.den := by
  simp only [pyFloat] at h
  split at h
  · exact parseUDec_den _ _ h
  · split at h
    · obtain ⟨q', hq', rfl⟩ := Option.map_eq_some'.1 h
      rw [Rat.den_neg_eq_den]
      exact parseUDec_den _ _ hq'
    · exact parseUDec_den _ _ h

-- all characters of `showNat` are digits, so strips and sign tests are inert

lemma head_digit_of_ne_nil (l : List Char) (hne : l ≠ [])
    (hdig : ∀ c ∈ l, isDigitCh c = true) :
    ∃ c, l.head? = some c ∧ isDigitCh c = true := by
  obtain ⟨c, t, rfl⟩ := List.exists_cons_of_ne_nil hne
  exact ⟨c, rfl, hdig c (List.mem_cons_self c t)⟩

lemma pyStrip_all_digits (l : List Char) (hne : l ≠ [])
    (hdig : ∀ c ∈ l, isDigitCh c = true) : pyStrip l = l := by
  apply pyStrip_eq_self
  · intro c hc
    exact isDigitCh_not_space c (hdig c (List.mem_of_mem_head? hc))
  · intro c hc
    exact isDigitCh_not_space c (hdig c (List.mem_of_getLast?_eq_some hc))

lemma pyInt_showInt (i : ℤ) (h0 : 0 ≤ i) : pyInt (showInt i) = some i := by
  have hlt : ¬i < 0 := not_lt.2 h0
  have hshow : showInt i = showNat i.natAbs := by
    unfold showInt
    rw [if_neg hlt]
  rw [hshow]
  have hdig := showNat_digits i.natAbs
  have hne := showNat_ne_nil i.natAbs
  obtain ⟨c, hc, hcd⟩ := head_digit_of_ne_nil _ hne hdig
  unfold pyInt
  rw [pyStrip_all_digits _ hne hdig]
  rw [if_neg, if_neg]
  · unfold parseUInt
    rw [if_pos ⟨hne, List.all_eq_true.2 hdig⟩]
    have := showNat_val i.natAbs
    rw [this]
    congr 1
    exact Int.natAbs_of_nonneg h0
  · rw [hc]
    intro e
    cases e
    exact isDigitCh_ne_minus _ hcd rfl
  · rw [hc]
    intro e
    cases e
    exact isDigitCh_ne_plus _ hcd rfl

lemma showCost_decomp (q : ℚ) :
    showCost q = showNat (q.num.toNat * (10 ^ q.den / q.den) / 10 ^ q.den) ++
      '.' :: padZeros q.den
        (showNat (q.num.toNat * (10 ^ q.den / q.den) % 10 ^ q.den)) := rfl

lemma showCost_head_digit (q : ℚ) :
    ∃ c, (showCost q).head? = some c ∧ isDigitCh c = true := by
  rw [showCost_decomp]
  obtain ⟨c, t, he⟩ := List.exists_cons_of_ne_nil (showNat_ne_nil
    (q.num.toNat * (10 ^ q.den / q.den) / 10 ^ q.den))
  rw [he]
  refine ⟨c, rfl, ?_⟩
  exact showNat_digits _ c (he ▸ List.mem_cons_self c t)

lemma showCost_getLast_digit (q : ℚ) :
    ∃ c, (showCost q).getLast? = some c ∧ isDigitCh c = true := by
  rw [showCost_decomp]
  have hPne : padZeros q.den
      (showNat (q.num.toNat * (10 ^ q.den / q.den) % 10 ^ q.den)) ≠ [] :=
    padZeros_ne_nil _ _ (showNat_ne_nil _)
  obtain ⟨c, hc⟩ := Option.isSome_iff_exists.1 (List.getLast?_isSome.2 hPne)
  refine ⟨c, ?_, ?_⟩
  · rw [List.getLast?_append]
    have h2 : ('.' :: padZeros q.den
        (showNat (q.num.toNat * (10 ^ q.den / q.den) % 10 ^ q.den))).getLast? = some c := by
      show (['.'] ++ padZeros q.den
        (showNat (q.num.toNat * (10 ^ q.den / q.den) % 10 ^ q.den))).getLast? = some c
      rw [List.getLast?_append, hc]
      rfl
    rw [h2]
    rfl
  · exact padZeros_digits _ _ c (List.mem_of_getLast?_eq_some hc)
      (fun c hc => showNat_digits _ c hc)

lemma pyStrip_showCost (q : ℚ) : pyStrip (showCost q) = showCost q := by
  obtain ⟨c1, hc1, hd1⟩ := showCost_head_digit q
  obtain ⟨c2, hc2, hd2⟩ := showCost_getLast_digit q
  apply pyStrip_eq_self
  · intro c hc
    rw [hc1] at hc
    cases hc
    exact isDigitCh_not_space _ hd1
  · intro c hc
    rw [hc2] at hc
    cases hc
    exact isDigitCh_not_space _ hd2

lemma pyFloat_showCost (q : ℚ) (h0 : 0 ≤ q) (hd : q.den ∣ 10 ^ q.den) :
    pyFloat (showCost q) = some q := by
  obtain ⟨c1, hc1, hd1⟩ := showCost_head_digit q
  simp only [pyFloat]
  rw [pyStrip_showCost q]
  rw [if_neg (by rw [hc1]; intro e; cases e; exact isDigitCh_ne_plus _ hd1 rfl)]
  rw [if_neg (by rw [hc1]; intro e; cases e; exact isDigitCh_ne_minus _ hd1 rfl)]
  -- the numeric pieces
  have hkpos : 0 < q.den := q.pos
  have ht : q.den * (10 ^ q.den / q.den) = 10 ^ q.den := Nat.mul_div_cancel' hd
  have htpos : 0 < 10 ^ q.den / q.den := by
    rcases Nat.eq_zero_or_pos (10 ^ q.den / q.den) with hz | hp
    · rw [hz, Nat.mul_zero] at ht
      exact absurd ht.symm (Nat.pos_iff_ne_zero.1 (pow_pos (by norm_num) q.den))
    · exact hp
  have hfrac_lt : q.num.toNat * (10 ^ q.den / q.den) % 10 ^ q.den < 10 ^ q.den :=
    Nat.mod_lt _ (pow_pos (by norm_num) q.den)
  -- split on the dot
  have hipdig := showNat_digits (q.num.toNat * (10 ^ q.den / q.den) / 10 ^ q.den)
  have hfpdig : ∀ c ∈ padZeros q.den
      (showNat (q.num.toNat * (10 ^ q.den / q.den) % 10 ^ q.den)), isDigitCh c = true :=
    fun c hc => padZeros_digits _ _ c hc (fun c' hc' => showNat_digits _ c' hc')
  have hsplit : splitPy '.' (showCost q) =
      [showNat (q.num.toNat * (10 ^ q.den / q.den) / 10 ^ q.den),
        padZeros q.den (showNat (q.num.toNat * (10 ^ q.den / q.den) % 10 ^ q.den))] := by
    rw [showCost_decomp]
    rw [splitPy_append '.' _ _ (fun hmem => isDigitCh_ne_dot _ (hipdig _ hmem) rfl)]
    rw [splitPy_no_sep '.' _ (fun hmem => isDigitCh_ne_dot _ (hfpdig _ hmem) rfl)]
  unfold parseUDec
  rw [hsplit]
  dsimp only
  rw [if_pos ⟨Or.inl (showNat_ne_nil _),
    List.all_eq_true.2 hipdig, List.all_eq_true.2 hfpdig⟩]
  congr 1
  -- value computation
  rw [showNat_val, digitsToNat_padZeros, showNat_val]
  rw [padZeros_length _ _ (showNat_length _ _ hfrac_lt hkpos)]
  have hnum : (q.num.toNat : ℚ) = (q.num : ℚ) := by
    exact_mod_cast congrArg (Int.cast : ℤ → ℚ) (Int.toNat_of_nonneg (Rat.num_nonneg.2 h0))
  have hDne : ((10 : ℚ)) ^ q.den ≠ 0 := by positivity
  have htQ : ((q.den : ℚ)) * ((10 ^ q.den / q.den : ℕ) : ℚ) = (10 : ℚ) ^ q.den := by
    exact_mod_cast congrArg (Nat.cast : ℕ → ℚ) ht
  have hm : ((q.num.toNat * (10 ^ q.den / q.den) : ℕ) : ℚ) / (10 : ℚ) ^ q.den = q := by
    push_cast
    rw [hnum, ← htQ]
    have htne : ((10 ^ q.den / q.den : ℕ) : ℚ) ≠ 0 := by
      exact_mod_cast Nat.pos_iff_ne_zero.1 htpos
    rw [mul_comm (q.den : ℚ) _, ← div_div, mul_div_assoc, div_self htne, mul_one]
    exact Rat.num_div_den q
  have hdm : q.num.toNat * (10 ^ q.den / q.den) / 10 ^ q.den * 10 ^ q.den
      + q.num.toNat * (10 ^ q.den / q.den) % 10 ^ q.den
      = q.num.toNat * (10 ^ q.den / q.den) := by
    rw [mul_comm]
    exact Nat.div_add_mod _ _
  have hdmQ : ((q.num.toNat * (10 ^ q.den / q.den) / 10 ^ q.den : ℕ) : ℚ) * (10 : ℚ) ^ q.den
      + ((q.num.toNat * (10 ^ q.den / q.den) % 10 ^ q.den : ℕ) : ℚ)
      = ((q.num.toNat * (10 ^ q.den / q.den) : ℕ) : ℚ) := by
    exact_mod_cast hdm
  have e1 : ((q.num.toNat * (10 ^ q.den / q.den) / 10 ^ q.den : ℕ) : ℚ)
      = ((q.num.toNat * (10 ^ q.den / q.den) / 10 ^ q.den : ℕ) : ℚ) * (10 : ℚ) ^ q.den
        / (10 : ℚ) ^ q.den := by
    rw [mul_div_cancel_right₀ _ hDne]
  rw [e1, div_add_div_same, hdmQ, hm]

lemma parseLine_good (line : List Char) (s : Shoe) (h : parseLine line = some s) :
    GoodShoe s := by
  simp only [parseLine] at h
  split at h
  · cases h
  · split at h
    case _ a b c d e heq =>
      have ha : a ∈ splitPy ',' (pyStrip line) := heq ▸ (by simp)
      have hb : b ∈ splitPy ',' (pyStrip line) := heq ▸ (by simp)
      have hc : c ∈ splitPy ',' (pyStrip line) := heq ▸ (by simp)
      simp only [Shoe.init] at h
      split at h
      · cases h
      case _ cv hcv =>
        split at h
        · cases h
        · split at h
          · cases h
          case _ qv hqv =>
            split at h
            · cases h
            · cases h
              refine ⟨pyStrip_idem a, ?_, pyStrip_idem b, ?_, pyStrip_idem c, ?_,
                not_lt.1 (by assumption), pyFloat_den d cv hcv, not_lt.1 (by assumption)⟩
              · exact fun hmem => mem_splitPy_not_sep ',' _ a ha (mem_pyStrip _ _ hmem)
              · exact fun hmem => mem_splitPy_not_sep ',' _ b hb (mem_pyStrip _ _ hmem)
              · exact fun hmem => mem_splitPy_not_sep ',' _ c hc (mem_pyStrip _ _ hmem)
    · cases h

lemma getLast?_append_cons (X : List Char) (a : Char) (Y : List Char) (c : Char)
    (h : Y.getLast? = some c) : (X ++ a :: Y).getLast? = some c := by
  rw [List.getLast?_append]
  have h2 : (a :: Y).getLast? = some c := by
    show ([a] ++ Y).getLast? = some c
    rw [List.getLast?_append, h]
    rfl
  rw [h2]
  rfl

lemma getLast_digit_of_ne_nil (l : List Char) (hne : l ≠ [])
    (hdig : ∀ c ∈ l, isDigitCh c = true) :
    ∃ c, l.getLast? = some c ∧ isDigitCh c = true := by
  obtain ⟨c, hc⟩ := Option.isSome_iff_exists.1 (List.getLast?_isSome.2 hne)
  exact ⟨c, hc, hdig c (List.mem_of_getLast?_eq_some hc)⟩

lemma showCost_chars (q : ℚ) (c : Char) (h : c ∈ showCost q) :
    isDigitCh c = true ∨ c = '.' := by
  rw [showCost_decomp] at h
  rcases List.mem_append.1 h with h | h
  · exact Or.inl (showNat_digits _ c h)
  · rcases List.mem_cons.1 h with rfl | h
    · exact Or.inr rfl
    · exact Or.inl (padZeros_digits _ _ c h (fun c' hc' => showNat_digits _ c' hc'))

lemma showCost_no_comma (q : ℚ) : ',' ∉ showCost q := by
  intro h
  rcases showCost_chars q ',' h with h | h
  · exact isDigitCh_ne_comma _ h rfl
  · cases h

lemma parseLine_save_line (s : Shoe) (hg : GoodShoe s) :
    parseLine (save_line s) = some s := by
  obtain ⟨hsc, hncc, hscd, hncd, hsp, hncp, hc0, hcden, hq0⟩ := hg
  have hshowInt : showInt s.quantity = showNat s.quantity.natAbs := by
    unfold showInt
    rw [if_neg (not_lt.2 hq0)]
  have hIntDig : ∀ c ∈ showInt s.quantity, isDigitCh c = true := by
    rw [hshowInt]
    exact fun c hc => showNat_digits _ c hc
  have hIntNe : showInt s.quantity ≠ [] := by
    rw [hshowInt]
    exact showNat_ne_nil _
  have hstrip : pyStrip (save_line s) = save_line s := by
    apply pyStrip_eq_self
    · intro c hc
      rcases hcy : s.country with _ | ⟨c0, t0⟩
      · have hcomma : c = ',' := by
          have : (save_line s).head? = some ',' := by
            unfold save_line
            rw [hcy]
            rfl
          rw [this] at hc
          cases hc
          rfl
        subst hcomma
        decide
      · have hc0head : (save_line s).head? = some c0 := by
          unfold save_line
          rw [List.head?_append, hcy]
          rfl
        rw [hc0head] at hc
        cases hc
        apply pyStrip_head_false s.country
        rw [hsc, hcy]
        rfl
    · intro c hc
      obtain ⟨cd, hcd2, hcdd⟩ := getLast_digit_of_ne_nil _ hIntNe hIntDig
      have hlast : (save_line s).getLast? = some cd := by
        unfold save_line
        exact getLast?_append_cons _ _ _ _ (getLast?_append_cons _ _ _ _
          (getLast?_append_cons _ _ _ _ (getLast?_append_cons _ _ _ _ hcd2)))
      rw [hlast] at hc
      cases hc
      exact isDigitCh_not_space _ hcdd
  have hne : save_line s ≠ [] := by
    unfold save_line
    intro h
    rcases List.append_eq_nil.1 h with ⟨-, h2⟩
    cases h2
  have hsplit : splitPy ',' (save_line s) =
      [s.country, s.code, s.product, showCost s.cost, showInt s.quantity] := by
    unfold save_line
    rw [splitPy_append ',' _ _ hncc, splitPy_append ',' _ _ hncd,
      splitPy_append ',' _ _ hncp, splitPy_append ',' _ _ (showCost_no_comma s.cost),
      splitPy_no_sep ',' _ (fun hmem => isDigitCh_ne_comma _ (hIntDig _ hmem) rfl)]
  simp only [parseLine]
  rw [hstrip, if_neg hne, hsplit]
  dsimp only
  simp only [Shoe.init, pyFloat_showCost s.cost hc0 hcden, pyInt_showInt s.quantity hq0]
  rw [if_neg (not_lt.2 hc0), if_neg (not_lt.2 hq0)]
  rw [hsc, hscd, hsp]

lemma loadLines_map_save (shoes : List Shoe) (h : ∀ s ∈ shoes, GoodShoe s) :
    (shoes.map save_line).filterMap parseLine = shoes := by
  induction shoes with
  | nil => rfl
  | cons s t ih =>
    rw [List.map_cons, List.filterMap_cons,
      parseLine_save_line s (h s (List.mem_cons_self s t))]
    rw [ih (fun x hx => h x (List.mem_cons_of_mem s hx))]

/-- C7: for a file consisting of a header line followed by valid 5-field
lines, load followed by save followed by load yields an in-memory record
sequence identical to the one after the first load (numeric fields compare
by value, so the round trip is exact in this model). -/
theorem load_save_load_round_trip (inv : InventoryManager) (hdr : List Char)
    (rest : List (List Char)) (hvalid : ∀ line ∈ rest, (parseLine line).isSome) :
    (read_shoes_data (read_shoes_data inv (some (hdr :: rest))).1
      (some (save_shoes_data (read_shoes_data inv (some (hdr :: rest))).1))).1.shoes_list
    = (read_shoes_data inv (some (hdr :: rest))).1.shoes_list := by
  have hgood : ∀ s ∈ rest.filterMap parseLine, GoodShoe s := by
    intro s hs
    obtain ⟨line, _, hline⟩ := List.mem_filterMap.1 hs
    exact parseLine_good line s hline
  show ((rest.filterMap parseLine).map save_line).filterMap parseLine
    = rest.filterMap parseLine
  exact loadLines_map_save _ hgood

theorem load_save_load_round_trip_witness :
    (∀ line ∈ ["US,A1,Runner,50.00,3".data, "UK,B2,Boot,9.5,2".data],
      (parseLine line).isSome) ∧
    (read_shoes_data (read_shoes_data ⟨[], "H".data⟩
        (some ("Header".data :: ["US,A1,Runner,50.00,3".data, "UK,B2,Boot,9.5,2".data]))).1
      (some (save_shoes_data (read_shoes_data ⟨[], "H".data⟩
        (some ("Header".data :: ["US,A1,Runner,50.00,3".data,
          "UK,B2,Boot,9.5,2".data]))).1))).1.shoes_list
    = (read_shoes_data ⟨[], "H".data⟩
        (some ("Header".data :: ["US,A1,Runner,50.00,3".data,
          "UK,B2,Boot,9.5,2".data]))).1.shoes_list :=
  ⟨by with_unfolding_all decide,
    load_save_load_round_trip _ _ _ (by with_unfolding_all decide)⟩
